import Mathlib

/-!
Shallow embedding of `base_export_manager/models/ir_exports_line.py`.

The `ir.exports.line` model stores a dotted export path `name` (such as
`partner_id/country_id/code`) together with four field selectors
`field1_id .. field4_id` and four model references `model1_id .. model4_id`.
This file embeds the computed `name`, the dependent model computations, the
computed `label`, the inverse derivation of the selectors from `name`, and
the `_check_name` constraint, and proves the specified properties about them.

Metadata catalogs (`ir.model.fields` rows, `ir.model` rows and the live
registry with its per-field description strings) are explicit association
lists in an `Env` value; a record is a `Line` value holding the four
(optional) selected fields.
-/

set_option autoImplicit false

namespace BaseExportManager

/-- Split a character list on `'/'`, mirroring Python's `str.split("/")`
for the one-character separator: the result is always nonempty and empty
segments are kept. -/
def splitCharsSlash : List Char → List (List Char)
  | [] => [[]]
  | c :: cs =>
    match splitCharsSlash cs with
    | [] => [[]]
    | p :: ps => if c = '/' then [] :: p :: ps else (c :: p) :: ps

/-- Join character lists with `'/'`, mirroring Python's `"/".join`. -/
def joinCharsSlash : List (List Char) → List Char
  | [] => []
  | [p] => p
  | p :: q :: ps => p ++ '/' :: joinCharsSlash (q :: ps)

/-- `(one.name or "").split("/")` on Lean strings. -/
def splitSlash (s : String) : List String :=
  (splitCharsSlash s.data).map (fun l => String.mk l)

/-- `"/".join(xs)` on Lean strings. -/
def joinSlash (xs : List String) : String :=
  String.mk (joinCharsSlash (xs.map String.data))

theorem splitCharsSlash_ne_nil (l : List Char) : splitCharsSlash l ≠ [] := by
  cases l with
  | nil => simp [splitCharsSlash]
  | cons c cs =>
    simp only [splitCharsSlash]
    cases splitCharsSlash cs with
    | nil => simp
    | cons p ps =>
      by_cases hc : c = '/' <;> simp [hc]

theorem joinCharsSlash_splitCharsSlash (l : List Char) :
    joinCharsSlash (splitCharsSlash l) = l := by
  induction l with
  | nil => rfl
  | cons c cs ih =>
    cases hs : splitCharsSlash cs with
    | nil => exact absurd hs (splitCharsSlash_ne_nil cs)
    | cons p ps =>
      rw [hs] at ih
      by_cases hc : c = '/'
      · subst hc
        simp only [splitCharsSlash, hs, if_pos rfl, joinCharsSlash, List.nil_append]
        rw [ih]
      · simp only [splitCharsSlash, hs, if_neg hc]
        cases ps with
        | nil =>
          simp only [joinCharsSlash] at ih ⊢
          rw [ih]
        | cons q ps2 =>
          simp only [joinCharsSlash, List.cons_append] at ih ⊢
          rw [ih]

theorem splitSlash_ne_nil (s : String) : splitSlash s ≠ [] := by
  unfold splitSlash
  intro h
  exact splitCharsSlash_ne_nil s.data (List.map_eq_nil_iff.mp h)

theorem joinSlash_splitSlash (s : String) : joinSlash (splitSlash s) = s := by
  unfold joinSlash splitSlash
  rw [List.map_map]
  have hmap : (String.data ∘ fun l => String.mk l) = id := rfl
  rw [hmap, List.map_id, joinCharsSlash_splitCharsSlash]

/-- An `ir.model.fields` row: technical name, type tag (`ttype`) and, for
relational fields, the technical name of the target model (`relation`). -/
structure FieldMeta where
  name : String
  ttype : String
  relation : String
deriving DecidableEq, Repr

/-- One row of the live registry description catalog: model technical name,
field technical name, and the localized description string returned by
`get_description(env)["string"]`. -/
structure RegistryField where
  model : String
  fname : String
  string : String
deriving DecidableEq, Repr

/-- The metadata environment: the `ir.model.fields` rows (keyed by the model
technical name they belong to), the `ir.model` rows (their technical names),
and the live registry description entries. All catalog lookups in the source
run under `sudo`, so no access-control filtering is modelled. -/
structure Env where
  fields : List (String × FieldMeta)
  models : List String
  registry : List RegistryField
deriving DecidableEq, Repr

/-- `self.env["ir.model.fields"].sudo().search([("name", "=", n), ("model_id", "=", m)])`. -/
def Env.findField (env : Env) (m : String) (n : String) : Option FieldMeta :=
  (env.fields.find? (fun p => p.1 == m && p.2.name == n)).map (fun p => p.2)

/-- `one.env[m]._fields[n].get_description(one.env)["string"]`, where `m` is an
optional model reference: an unset model (`env[False]`) and a field missing
from the registry both raise `KeyError`, modelled as `none`. -/
def envDesc (env : Env) (om : Option String) (n : String) : Option String :=
  match om with
  | none => none
  | some m => (env.registry.find? (fun r => r.model == m && r.fname == n)).map (fun r => r.string)

/-- The selector state of one `ir.exports.line` record: the four optional
`ir.model.fields` references. -/
structure Line where
  field1 : Option FieldMeta
  field2 : Option FieldMeta
  field3 : Option FieldMeta
  field4 : Option FieldMeta
deriving DecidableEq, Repr

/-- The helper `field_n`: choose the field according to its indentation level. -/
def Line.field_n (line : Line) (n : Nat) : Option FieldMeta :=
  match n with
  | 1 => line.field1
  | 2 => line.field2
  | 3 => line.field3
  | 4 => line.field4
  | _ => none

/-- Write one selector (`one[one.field_n(num, True)] = value`). -/
def Line.setField (line : Line) (n : Nat) (v : Option FieldMeta) : Line :=
  match n with
  | 1 => { line with field1 := v }
  | 2 => { line with field2 := v }
  | 3 => { line with field3 := v }
  | 4 => { line with field4 := v }
  | _ => line

/-- Body of `_compute_model2_id` / `_compute_model3_id` / `_compute_model4_id`:
`field.ttype and "2" in field.ttype and IrModel.search([("model", "=", field.relation)])`.
A relational type tag contains the character `'2'`; the result is the
`ir.model` row whose technical name is the field's relation target, and is
unset when the field is unset, non-relational, or the target model is not
registered. -/
def relatedModel (env : Env) (of : Option FieldMeta) : Option String :=
  match of with
  | none => none
  | some f =>
    if f.ttype.data.contains '2' then
      if env.models.contains f.relation then some f.relation else none
    else none

/-- The helper `model_n`: `model1_id` mirrors the export's target model `m1`
(a `related` field on `export_id.model_id`), and `model(k)_id` for k = 2, 3, 4
is computed from `field(k-1)_id`. -/
def Line.model_n (line : Line) (env : Env) (m1 : String) (n : Nat) : Option String :=
  match n with
  | 1 => some m1
  | 2 => relatedModel env line.field1
  | 3 => relatedModel env line.field2
  | 4 => relatedModel env line.field3
  | _ => none

/-- `_compute_name`: `"/".join(one.field_n(num).name for num in range(1, 5) if one.field_n(num))`.
Note the generator filters unset fields; it does not stop at the first unset
one. (The source only writes the value back when it differs from the stored
one, which does not change the computed value.) -/
def computeName (line : Line) : String :=
  joinSlash (([1, 2, 3, 4].filterMap (fun num => line.field_n num)).map FieldMeta.name)

/-- The loop of `_compute_label`: walk the indentation levels, stop at the
first unset field, append each field's registry description to `parts`, and
reset `parts` to `[]` on a `KeyError` (missing model or missing registry
description). -/
def labelLoop (env : Env) (m1 : String) (line : Line) : List Nat → List String → List String
  | [], parts => parts
  | num :: rest, parts =>
    match line.field_n num with
    | none => parts
    | some f =>
      match envDesc env (line.model_n env m1 num) f.name with
      | none => []
      | some d => labelLoop env m1 line rest (parts ++ [d])

/-- `_compute_label`: the descriptions joined by `"/"` with the technical
`name` appended in parentheses, or unset when there are no parts or `name` is
empty. -/
def computeLabel (env : Env) (m1 : String) (line : Line) (name : String) : Option String :=
  let parts := labelLoop env m1 line [1, 2, 3, 4] []
  if parts ≠ [] ∧ name ≠ "" then some (joinSlash parts ++ " (" ++ name ++ ")") else none

/-- The validation errors the source can raise, one constructor per
user-facing `ValidationError` message. -/
inductive ExportError where
  | depthExceeded (name : String)
  | fieldNotFound (name : String) (model : Option String)
  | fieldDoesNotExist (name : String)
  | fieldAlreadyExists (name : String)
deriving DecidableEq, Repr

/-- `_get_field_id`: the literal segment `".id"` is aliased to `"id"`, then the
`ir.model.fields` row with that technical name on the given model is searched
under `sudo`; an empty search result raises the "Field not found in model"
validation error, which carries the (aliased) field name and the model
technical name (`model.model`, which is falsy when the model is unset). -/
def getFieldId (env : Env) (model : Option String) (name : String) :
    Except ExportError FieldMeta :=
  let name2 := if name == ".id" then "id" else name
  match model with
  | none => Except.error (ExportError.fieldNotFound name2 none)
  | some m =>
    match env.findField m name2 with
    | some f => Except.ok f
    | none => Except.error (ExportError.fieldNotFound name2 (some m))

/-- `_check_name`: skipped entirely under the `skip_check` context flag;
otherwise it raises "Field does not exist" when `label` is unset and
"Field already exists" when more than one line of the export carries the same
stored `name`. The `search_count` over the export's lines counts the record
itself (whose stored `name` is the checked one) once, plus every sibling whose
stored `name` equals it; `sibs` lists the stored names of the sibling lines. -/
def checkName (skipCheck : Bool) (env : Env) (m1 : String) (sibs : List String)
    (line : Line) (name : String) : Option ExportError :=
  if skipCheck then none
  else if (computeLabel env m1 line name).isNone then some (ExportError.fieldDoesNotExist name)
  else if 1 < 1 + sibs.count name then some (ExportError.fieldAlreadyExists name)
  else none

/-- The loop of `_inverse_name` over the indentation levels `nums`: a level
beyond the segment count (or any level, when no segment is nonempty) clears
its selector under `skip_check`; otherwise the segment is resolved against
`model_n` of the current state and assigned, and a resolution failure aborts
the loop with the record state reached so far. -/
def inverseLoop (env : Env) (m1 : String) (parts : List String) (anyParts : Bool) :
    List Nat → Line → Line × Option ExportError
  | [], line => (line, none)
  | num :: rest, line =>
    if anyParts = false ∨ parts.length < num then
      inverseLoop env m1 parts anyParts rest (line.setField num none)
    else
      match getFieldId env (line.model_n env m1 num) (parts.getD (num - 1) "") with
      | Except.error e => (line, some e)
      | Except.ok f => inverseLoop env m1 parts anyParts rest (line.setField num (some f))

/-- `_inverse_name`: split `one.name or ""` on `"/"`, raise the depth error on
more than 4 segments, run the assignment loop, and, when some segment is
nonempty, run `_check_name` (after invalidating the cached `label`) on the
resulting state. The returned pair is the record's selector state when the
method finishes or raises, together with the raised error if any. -/
def inverseNameSt (env : Env) (m1 : String) (sibs : List String) (line : Line)
    (name : Option String) : Line × Option ExportError :=
  let s := name.getD ""
  let parts := splitSlash s
  if 4 < parts.length then
    (line, some (ExportError.depthExceeded s))
  else
    let anyParts := parts.any (fun p => p != "")
    match inverseLoop env m1 parts anyParts [1, 2, 3, 4] line with
    | (l2, some e) => (l2, some e)
    | (l2, none) =>
      if anyParts then
        match checkName false env m1 sibs l2 s with
        | some e => (l2, some e)
        | none => (l2, none)
      else (l2, none)

/-- A line with all four selectors unset. -/
def clearedLine : Line := ⟨none, none, none, none⟩

/-! ### Specification-side definitions

These follow the spec's wording, to be compared with the definitions
translated from the source. -/

/-- The contiguous prefix of set values of a list of optional values. -/
def takeWhileSome {α : Type} : List (Option α) → List α
  | [] => []
  | none :: _ => []
  | some a :: rest => a :: takeWhileSome rest

/-- Spec wording of the forward `name` derivation: collect the technical
names of the set fields in order, stopping at the first unset field, and join
with `"/"`. -/
def nameSpecStop (line : Line) : String :=
  joinSlash ((takeWhileSome [line.field1, line.field2, line.field3, line.field4]).map FieldMeta.name)

/-- The four (field, model) pairs of the four indentation levels. -/
def levelPairs (env : Env) (m1 : String) (line : Line) :
    List (Option FieldMeta × Option String) :=
  [1, 2, 3, 4].map (fun num => (line.field_n num, line.model_n env m1 num))

/-- The contiguous prefix of level pairs whose field is set. -/
def takeWhilePairs : List (Option FieldMeta × Option String) → List (FieldMeta × Option String)
  | [] => []
  | (none, _) :: _ => []
  | (some f, om) :: rest => (f, om) :: takeWhilePairs rest

/-- All registry descriptions for a chain of (field, model) pairs, or `none`
when any single lookup fails. -/
def allDescs (env : Env) : List (FieldMeta × Option String) → Option (List String)
  | [] => some []
  | (f, om) :: rest =>
    match envDesc env om f.name, allDescs env rest with
    | some d, some ds => some (d :: ds)
    | _, _ => none

/-- Spec wording of the `label` derivation: walk the levels stopping at the
first unset field, fetch every description (any failure leaves the label
unset), then join with `"/"` and append the technical `name` in parentheses;
the label is unset when there are no parts or `name` is empty. -/
def labelSpec (env : Env) (m1 : String) (line : Line) (name : String) : Option String :=
  match allDescs env (takeWhilePairs (levelPairs env m1 line)) with
  | none => none
  | some ds => if ds ≠ [] ∧ name ≠ "" then some (joinSlash ds ++ " (" ++ name ++ ")") else none

/-- The `labelLoop` over (field, model) pairs directly, an intermediate step
between the source loop over level numbers and the spec formulation. -/
def pairLoop (env : Env) : List (Option FieldMeta × Option String) → List String → List String
  | [], parts => parts
  | (none, _) :: _, parts => parts
  | (some f, om) :: rest, parts =>
    match envDesc env om f.name with
    | none => []
    | some d => pairLoop env rest (parts ++ [d])

theorem labelLoop_eq_pairLoop (env : Env) (m1 : String) (line : Line)
    (nums : List Nat) (acc : List String) :
    labelLoop env m1 line nums acc =
      pairLoop env (nums.map (fun num => (line.field_n num, line.model_n env m1 num))) acc := by
  induction nums generalizing acc with
  | nil => rfl
  | cons num rest ih =>
    cases hf : line.field_n num with
    | none => simp [labelLoop, pairLoop, hf]
    | some f =>
      cases hd : envDesc env (line.model_n env m1 num) f.name with
      | none => simp [labelLoop, pairLoop, hf, hd]
      | some d => simp [labelLoop, pairLoop, hf, hd, ih (acc ++ [d])]

theorem pairLoop_eq_allDescs (env : Env) (l : List (Option FieldMeta × Option String))
    (acc : List String) :
    pairLoop env l acc =
      match allDescs env (takeWhilePairs l) with
      | none => []
      | some ds => acc ++ ds := by
  induction l generalizing acc with
  | nil => simp [pairLoop, takeWhilePairs, allDescs]
  | cons hd tl ih =>
    obtain ⟨of, om⟩ := hd
    cases of with
    | none => simp [pairLoop, takeWhilePairs, allDescs]
    | some f =>
      cases hd : envDesc env om f.name with
      | none => simp [pairLoop, takeWhilePairs, allDescs, hd]
      | some d =>
        simp only [pairLoop, takeWhilePairs, allDescs, hd]
        rw [ih (acc ++ [d])]
        cases htl : allDescs env (takeWhilePairs tl) with
        | none => rfl
        | some ds => simp

/-! ### Helper lemmas -/

theorem findField_name (env : Env) (m p : String) (g : FieldMeta)
    (h : env.findField m p = some g) : g.name = p := by
  unfold Env.findField at h
  cases hfind : env.fields.find? (fun q => q.1 == m && q.2.name == p) with
  | none => rw [hfind] at h; simp at h
  | some pr =>
    rw [hfind] at h
    simp only [Option.map_some'] at h
    have hpred := List.find?_some hfind
    simp only [Bool.and_eq_true, beq_iff_eq] at hpred
    have h2 : pr.2 = g := Option.some.inj h
    rw [← h2]
    exact hpred.2

theorem getFieldId_def (env : Env) (om : Option String) (p : String) :
    getFieldId env om p =
      match om with
      | none => Except.error (ExportError.fieldNotFound (if p == ".id" then "id" else p) none)
      | some m =>
        match env.findField m (if p == ".id" then "id" else p) with
        | some f => Except.ok f
        | none =>
          Except.error (ExportError.fieldNotFound (if p == ".id" then "id" else p) (some m)) := by
  rfl

theorem getFieldId_error_shape (env : Env) (om : Option String) (p : String)
    (e : ExportError) (h : getFieldId env om p = Except.error e) :
    ∃ q om2, e = ExportError.fieldNotFound q om2 := by
  cases om with
  | none =>
    simp only [getFieldId_def, Except.error.injEq] at h
    exact ⟨_, _, h.symm⟩
  | some m =>
    simp only [getFieldId_def] at h
    cases hf : env.findField m (if p == ".id" then "id" else p) with
    | none =>
      rw [hf] at h
      simp only [Except.error.injEq] at h
      exact ⟨_, _, h.symm⟩
    | some g => rw [hf] at h; simp at h

theorem getFieldId_ok_name (env : Env) (om : Option String) (p : String) (f : FieldMeta)
    (h : getFieldId env om p = Except.ok f) (hp : p ≠ ".id") : f.name = p := by
  cases om with
  | none => simp [getFieldId_def] at h
  | some m =>
    simp only [getFieldId_def, if_neg (show ¬((p == ".id") = true) by simpa using hp)] at h
    cases hf : env.findField m p with
    | none => rw [hf] at h; simp at h
    | some g =>
      rw [hf] at h
      simp only [Except.ok.injEq] at h
      rw [← h]
      exact findField_name env m p g hf

theorem inverseLoop_error_shape (env : Env) (m1 : String) (parts : List String) (ap : Bool)
    (nums : List Nat) :
    ∀ (line : Line) (e : ExportError),
      (inverseLoop env m1 parts ap nums line).2 = some e →
      ∃ q om, e = ExportError.fieldNotFound q om := by
  induction nums with
  | nil => intro line e h; simp [inverseLoop] at h
  | cons num rest ih =>
    intro line e h
    rw [inverseLoop] at h
    split at h
    · exact ih _ e h
    · cases hg : getFieldId env (line.model_n env m1 num) (parts.getD (num - 1) "") with
      | error e2 =>
        rw [hg] at h
        simp only [Option.some.injEq] at h
        rw [← h]
        exact getFieldId_error_shape env _ _ e2 hg
      | ok f =>
        rw [hg] at h
        exact ih _ e h

theorem checkName_error_shape (skipCheck : Bool) (env : Env) (m1 : String)
    (sibs : List String) (line : Line) (name : String) (e : ExportError)
    (h : checkName skipCheck env m1 sibs line name = some e) :
    e = ExportError.fieldDoesNotExist name ∨ e = ExportError.fieldAlreadyExists name := by
  unfold checkName at h
  split at h
  · simp at h
  · split at h
    · simp only [Option.some.injEq] at h
      exact Or.inl h.symm
    · split at h
      · simp only [Option.some.injEq] at h
        exact Or.inr h.symm
      · simp at h

theorem inverseNameSt_no_depth (env : Env) (m1 : String) (sibs : List String)
    (line : Line) (v : Option String)
    (hlen : ¬ 4 < (splitSlash (v.getD "")).length) (t : String) :
    (inverseNameSt env m1 sibs line v).2 ≠ some (ExportError.depthExceeded t) := by
  unfold inverseNameSt
  simp only [if_neg hlen]
  intro h
  split at h
  next l2 e heq =>
    simp only [Option.some.injEq] at h
    obtain ⟨q, om, hshape⟩ :=
      inverseLoop_error_shape env m1 (splitSlash (v.getD ""))
        ((splitSlash (v.getD "")).any (fun p => p != "")) [1, 2, 3, 4] line e
        (by rw [heq])
    rw [h] at hshape
    exact ExportError.noConfusion hshape
  next l2 heq =>
    split at h
    · split at h
      next e2 hchk =>
        simp only [Option.some.injEq] at h
        rcases checkName_error_shape false env m1 sibs l2 (v.getD "") e2 hchk with hs | hs <;>
          rw [h] at hs <;> exact ExportError.noConfusion hs
      next => simp at h
    · simp at h

/-! ### Concrete fixtures -/

/-- A relational (`many2one`) field targeting `res.partner`. -/
def fldPartner : FieldMeta := ⟨"partner_id", "many2one", "res.partner"⟩

/-- A plain `char` field. -/
def fldPName : FieldMeta := ⟨"name", "char", ""⟩

/-- The `id` field of `res.partner`. -/
def fldPId : FieldMeta := ⟨"id", "integer", ""⟩

/-- A field registered in `ir.model.fields` but absent from the registry
description catalog. -/
def fldInternal : FieldMeta := ⟨"internal_code", "char", ""⟩

/-- A small metadata environment with two models. -/
def envEx : Env :=
  { fields := [("res.users", fldPartner), ("res.users", fldInternal),
               ("res.partner", fldPName), ("res.partner", fldPId)]
  , models := ["res.users", "res.partner"]
  , registry := [⟨"res.users", "partner_id", "Partner"⟩,
                 ⟨"res.partner", "name", "Name"⟩,
                 ⟨"res.partner", "id", "ID"⟩] }

/-- A line whose second selector is set while the first is unset. -/
def gapLine : Line := ⟨none, some fldPName, none, none⟩

/-- A contiguous two-level chain: `partner_id/name`. -/
def chainLine : Line := ⟨some fldPartner, some fldPName, none, none⟩

/-- A line selecting only the registry-less `internal_code` field. -/
def lineInternal : Line := ⟨some fldInternal, none, none, none⟩

/-- A line selecting only the `name` field of `res.partner`. -/
def nameLine : Line := ⟨some fldPName, none, none, none⟩

/-! ### C1: forward derivation of `name` -/

/-- C1, counterexample: `_compute_name` joins all set fields and does not
stop at the first unset one, so on a line whose first selector is unset and
whose second is set the computed `name` differs from the
stop-at-first-unset specification. -/
theorem compute_name_stop_counterexample :
    computeName gapLine ≠ nameSpecStop gapLine := by decide

/-- No set selector may follow an unset one. -/
def Line.contiguous (line : Line) : Prop :=
  (line.field2.isSome = true → line.field1.isSome = true) ∧
  (line.field3.isSome = true → line.field2.isSome = true) ∧
  (line.field4.isSome = true → line.field3.isSome = true)

instance (line : Line) : Decidable line.contiguous :=
  inferInstanceAs (Decidable (_ ∧ _ ∧ _))

/-- C1, amended: the computed `name` is the `"/"`-join of the technical names
of all set fields in order (a set field following an unset one still
contributes); on every line where the set fields form a contiguous prefix,
this agrees with the stop-at-first-unset reading. -/
theorem compute_name_eq_stop_of_contiguous (line : Line) (h : line.contiguous) :
    computeName line = nameSpecStop line := by
  obtain ⟨f1, f2, f3, f4⟩ := line
  obtain ⟨h12, h23, h34⟩ := h
  cases f1 <;> cases f2 <;> cases f3 <;> cases f4 <;>
    simp_all [computeName, nameSpecStop, takeWhileSome, Line.field_n]

theorem compute_name_eq_stop_witness :
    Line.contiguous chainLine ∧ computeName chainLine = nameSpecStop chainLine :=
  ⟨by decide, compute_name_eq_stop_of_contiguous chainLine (by decide)⟩

/-! ### C5: label derivation -/

/-- C5: `_compute_label` computes exactly the specified label: walk the
levels stopping at the first unset field, collect every localized
description (any failed lookup leaves the label unset), then join with `"/"`
and append the technical `name` in parentheses, the label being unset when
there are no parts or `name` is empty. -/
theorem compute_label_eq_spec (env : Env) (m1 : String) (line : Line) (name : String) :
    computeLabel env m1 line name = labelSpec env m1 line name := by
  unfold computeLabel labelSpec levelPairs
  rw [labelLoop_eq_pairLoop, pairLoop_eq_allDescs]
  cases hd : allDescs env
      (takeWhilePairs ([1, 2, 3, 4].map (fun num => (line.field_n num, line.model_n env m1 num)))) with
  | none => simp
  | some ds => simp

/-! ### C6: validation fails when the label is unset -/

/-- C6: whenever a line's `label` is unset, the (non-skipped) constraint
check raises the "Field does not exist" validation error for the line's
`name`. -/
theorem check_name_label_unset (env : Env) (m1 : String) (sibs : List String)
    (line : Line) (name : String) (h : computeLabel env m1 line name = none) :
    checkName false env m1 sibs line name = some (ExportError.fieldDoesNotExist name) := by
  simp [checkName, h]

theorem check_name_label_unset_witness :
    computeLabel envEx "res.users" lineInternal "internal_code" = none
    ∧ checkName false envEx "res.users" [] lineInternal "internal_code"
        = some (ExportError.fieldDoesNotExist "internal_code") :=
  ⟨by decide,
   check_name_label_unset envEx "res.users" [] lineInternal "internal_code" (by decide)⟩

/-! ### C7: per-export uniqueness of `name` -/

/-- C7: on a describable line (set `label`), the constraint check raises the
duplicate-name validation error exactly when a sibling line of the same
export carries the same stored `name`; consequently a state that passes the
check without error has no sibling with this `name`. -/
theorem check_name_duplicate (env : Env) (m1 : String) (sibs : List String)
    (line : Line) (name : String)
    (hlabel : (computeLabel env m1 line name).isSome = true) :
    (0 < sibs.count name →
      checkName false env m1 sibs line name = some (ExportError.fieldAlreadyExists name))
    ∧ (checkName false env m1 sibs line name = none → sibs.count name = 0) := by
  have hnn : ¬ (computeLabel env m1 line name).isNone = true := by
    cases hc : computeLabel env m1 line name with
    | none => rw [hc] at hlabel; simp at hlabel
    | some s => simp
  constructor
  · intro hdup
    unfold checkName
    rw [if_neg (by simp), if_neg hnn, if_pos (by omega)]
  · intro hnone
    by_contra hne
    have hpos : 0 < sibs.count name := Nat.pos_of_ne_zero hne
    unfold checkName at hnone
    rw [if_neg (by simp), if_neg hnn, if_pos (by omega)] at hnone
    exact Option.noConfusion hnone

theorem check_name_duplicate_witness :
    (computeLabel envEx "res.partner" nameLine "name").isSome = true
    ∧ checkName false envEx "res.partner" ["name"] nameLine "name"
        = some (ExportError.fieldAlreadyExists "name") :=
  ⟨by decide,
   (check_name_duplicate envEx "res.partner" ["name"] nameLine "name" (by decide)).1
     (by decide)⟩

/-! ### C8: dependent-model derivation -/

/-- C8: for k = 2, 3, 4, `model(k)_id` is the registered model whose
technical name is `field(k-1)_id`'s relation target when that field is set
and its type tag contains the relational marker `'2'`, and is unset when the
field is unset or non-relational. -/
theorem dependent_model_spec (env : Env) (m1 : String) (line : Line) :
    ((∀ f, line.field1 = some f → '2' ∈ f.ttype.data →
        f.relation ∈ env.models → line.model_n env m1 2 = some f.relation)
      ∧ (∀ f, line.field1 = some f → '2' ∉ f.ttype.data →
          line.model_n env m1 2 = none)
      ∧ (line.field1 = none → line.model_n env m1 2 = none))
    ∧ ((∀ f, line.field2 = some f → '2' ∈ f.ttype.data →
        f.relation ∈ env.models → line.model_n env m1 3 = some f.relation)
      ∧ (∀ f, line.field2 = some f → '2' ∉ f.ttype.data →
          line.model_n env m1 3 = none)
      ∧ (line.field2 = none → line.model_n env m1 3 = none))
    ∧ ((∀ f, line.field3 = some f → '2' ∈ f.ttype.data →
        f.relation ∈ env.models → line.model_n env m1 4 = some f.relation)
      ∧ (∀ f, line.field3 = some f → '2' ∉ f.ttype.data →
          line.model_n env m1 4 = none)
      ∧ (line.field3 = none → line.model_n env m1 4 = none)) := by
  refine ⟨⟨?_, ?_, ?_⟩, ⟨?_, ?_, ?_⟩, ⟨?_, ?_, ?_⟩⟩ <;>
    first
      | (intro f hf ht hm; simp [Line.model_n, relatedModel, hf, ht, hm])
      | (intro f hf ht; simp [Line.model_n, relatedModel, hf, ht])
      | (intro hf; simp [Line.model_n, relatedModel, hf])

theorem dependent_model_spec_witness :
    chainLine.field1 = some fldPartner
    ∧ '2' ∈ fldPartner.ttype.data
    ∧ fldPartner.relation ∈ envEx.models
    ∧ chainLine.model_n envEx "res.users" 2 = some "res.partner" :=
  ⟨rfl, by decide, by decide,
   (dependent_model_spec envEx "res.users" chainLine).1.1 fldPartner rfl (by decide) (by decide)⟩

/-! ### C10: clearing is silent -/

/-- C10: setting `name` to an unset value or to the empty string unsets all
four selectors and raises no validation error, for every environment, every
starting line state and every set of sibling names. -/
theorem inverse_name_clear (env : Env) (m1 : String) (sibs : List String) (line : Line) :
    inverseNameSt env m1 sibs line none = (clearedLine, none)
    ∧ inverseNameSt env m1 sibs line (some "") = (clearedLine, none) :=
  ⟨rfl, rfl⟩

/-! ### C3: depth validation -/

/-- C3: setting `name` to a string whose `"/"`-split has 5 or more segments
always fails with the depth error, whatever the segments are; a split of
exactly 4 segments never produces the depth error. -/
theorem inverse_name_depth_check (env : Env) (m1 : String) (sibs : List String)
    (line : Line) (s : String) :
    (4 < (splitSlash s).length →
      inverseNameSt env m1 sibs line (some s) = (line, some (ExportError.depthExceeded s)))
    ∧ ((splitSlash s).length = 4 →
      ∀ t, (inverseNameSt env m1 sibs line (some s)).2 ≠ some (ExportError.depthExceeded t)) := by
  constructor
  · intro hlen
    unfold inverseNameSt
    simp only [Option.getD_some]
    rw [if_pos hlen]
  · intro hlen t
    exact inverseNameSt_no_depth env m1 sibs line (some s)
      (by simp only [Option.getD_some, hlen]; omega) t

theorem inverse_name_depth_check_witness :
    4 < (splitSlash "a/b/c/d/e").length
    ∧ inverseNameSt envEx "res.users" [] clearedLine (some "a/b/c/d/e")
        = (clearedLine, some (ExportError.depthExceeded "a/b/c/d/e")) :=
  ⟨by decide,
   (inverse_name_depth_check envEx "res.users" [] clearedLine "a/b/c/d/e").1 (by decide)⟩

/-! ### C9: atomicity of the depth error -/

/-- C9: whenever setting `name` raises the depth validation error, the
selector state is exactly the one the record started with: the depth check
runs before any selector assignment. -/
theorem inverse_name_depth_atomic (env : Env) (m1 : String) (sibs : List String)
    (line : Line) (v : Option String) (t : String)
    (h : (inverseNameSt env m1 sibs line v).2 = some (ExportError.depthExceeded t)) :
    (inverseNameSt env m1 sibs line v).1 = line := by
  by_cases hlen : 4 < (splitSlash (v.getD "")).length
  · unfold inverseNameSt
    rw [if_pos hlen]
  · exact absurd h (inverseNameSt_no_depth env m1 sibs line v hlen t)

theorem inverse_name_depth_atomic_witness :
    (inverseNameSt envEx "res.users" [] chainLine (some "a/b/c/d/e")).2
        = some (ExportError.depthExceeded "a/b/c/d/e")
    ∧ (inverseNameSt envEx "res.users" [] chainLine (some "a/b/c/d/e")).1 = chainLine :=
  ⟨by decide,
   inverse_name_depth_atomic envEx "res.users" [] chainLine (some "a/b/c/d/e") "a/b/c/d/e"
     (by decide)⟩

/-! ### C2: round-trip of the inverse derivation -/

theorem inverseLoop_cons_hit (env : Env) (m1 : String) (parts : List String) (num : Nat)
    (rest : List Nat) (line : Line) (val : String)
    (hnum : ¬ parts.length < num) (hval : parts.getD (num - 1) "" = val) :
    inverseLoop env m1 parts true (num :: rest) line =
      match getFieldId env (line.model_n env m1 num) val with
      | Except.error e => (line, some e)
      | Except.ok f => inverseLoop env m1 parts true rest (line.setField num (some f)) := by
  rw [inverseLoop, if_neg (by simp [hnum]), hval]

theorem inverseLoop_cons_miss (env : Env) (m1 : String) (parts : List String) (ap : Bool)
    (num : Nat) (rest : List Nat) (line : Line)
    (hcond : ap = false ∨ parts.length < num) :
    inverseLoop env m1 parts ap (num :: rest) line =
      inverseLoop env m1 parts ap rest (line.setField num none) := by
  rw [inverseLoop, if_pos hcond]

theorem inverseLoop_roundtrip (env : Env) (m1 : String) (line : Line) (parts : List String)
    (h1 : parts ≠ []) (h4 : parts.length ≤ 4) (hid : ∀ p ∈ parts, p ≠ ".id")
    (hok : (inverseLoop env m1 parts true [1, 2, 3, 4] line).2 = none) :
    computeName (inverseLoop env m1 parts true [1, 2, 3, 4] line).1 = joinSlash parts := by
  rcases parts with _ | ⟨a, _ | ⟨b, _ | ⟨c, _ | ⟨d, _ | ⟨e, t⟩⟩⟩⟩⟩
  · exact absurd rfl h1
  · rw [inverseLoop_cons_hit env m1 [a] 1 [2, 3, 4] line a (by norm_num) rfl] at hok ⊢
    cases hg1 : getFieldId env (line.model_n env m1 1) a with
    | error e => simp [hg1] at hok
    | ok f1 =>
      simp only [hg1] at hok ⊢
      have hname1 : f1.name = a := getFieldId_ok_name env _ a f1 hg1 (hid a (by simp))
      rw [← hname1]
      rfl
  · rw [inverseLoop_cons_hit env m1 [a, b] 1 [2, 3, 4] line a (by norm_num) rfl] at hok ⊢
    cases hg1 : getFieldId env (line.model_n env m1 1) a with
    | error e => simp [hg1] at hok
    | ok f1 =>
      simp only [hg1] at hok ⊢
      rw [inverseLoop_cons_hit env m1 [a, b] 2 [3, 4]
        (line.setField 1 (some f1)) b (by norm_num) rfl] at hok ⊢
      cases hg2 : getFieldId env ((line.setField 1 (some f1)).model_n env m1 2) b with
      | error e => simp [hg2] at hok
      | ok f2 =>
        simp only [hg2] at hok ⊢
        have hname1 : f1.name = a := getFieldId_ok_name env _ a f1 hg1 (hid a (by simp))
        have hname2 : f2.name = b := getFieldId_ok_name env _ b f2 hg2 (hid b (by simp))
        rw [← hname1, ← hname2]
        rfl
  · rw [inverseLoop_cons_hit env m1 [a, b, c] 1 [2, 3, 4] line a (by norm_num) rfl] at hok ⊢
    cases hg1 : getFieldId env (line.model_n env m1 1) a with
    | error e => simp [hg1] at hok
    | ok f1 =>
      simp only [hg1] at hok ⊢
      rw [inverseLoop_cons_hit env m1 [a, b, c] 2 [3, 4]
        (line.setField 1 (some f1)) b (by norm_num) rfl] at hok ⊢
      cases hg2 : getFieldId env ((line.setField 1 (some f1)).model_n env m1 2) b with
      | error e => simp [hg2] at hok
      | ok f2 =>
        simp only [hg2] at hok ⊢
        rw [inverseLoop_cons_hit env m1 [a, b, c] 3 [4]
          ((line.setField 1 (some f1)).setField 2 (some f2)) c (by norm_num) rfl] at hok ⊢
        cases hg3 : getFieldId env
            (((line.setField 1 (some f1)).setField 2 (some f2)).model_n env m1 3) c with
        | error e => simp [hg3] at hok
        | ok f3 =>
          simp only [hg3] at hok ⊢
          have hname1 : f1.name = a := getFieldId_ok_name env _ a f1 hg1 (hid a (by simp))
          have hname2 : f2.name = b := getFieldId_ok_name env _ b f2 hg2 (hid b (by simp))
          have hname3 : f3.name = c := getFieldId_ok_name env _ c f3 hg3 (hid c (by simp))
          rw [← hname1, ← hname2, ← hname3]
          rfl
  · rw [inverseLoop_cons_hit env m1 [a, b, c, d] 1 [2, 3, 4] line a (by norm_num) rfl] at hok ⊢
    cases hg1 : getFieldId env (line.model_n env m1 1) a with
    | error e => simp [hg1] at hok
    | ok f1 =>
      simp only [hg1] at hok ⊢
      rw [inverseLoop_cons_hit env m1 [a, b, c, d] 2 [3, 4]
        (line.setField 1 (some f1)) b (by norm_num) rfl] at hok ⊢
      cases hg2 : getFieldId env ((line.setField 1 (some f1)).model_n env m1 2) b with
      | error e => simp [hg2] at hok
      | ok f2 =>
        simp only [hg2] at hok ⊢
        rw [inverseLoop_cons_hit env m1 [a, b, c, d] 3 [4]
          ((line.setField 1 (some f1)).setField 2 (some f2)) c (by norm_num) rfl] at hok ⊢
        cases hg3 : getFieldId env
            (((line.setField 1 (some f1)).setField 2 (some f2)).model_n env m1 3) c with
        | error e => simp [hg3] at hok
        | ok f3 =>
          simp only [hg3] at hok ⊢
          rw [inverseLoop_cons_hit env m1 [a, b, c, d] 4 []
            (((line.setField 1 (some f1)).setField 2 (some f2)).setField 3 (some f3)) d
            (by norm_num) rfl] at hok ⊢
          cases hg4 : getFieldId env
              ((((line.setField 1 (some f1)).setField 2 (some f2)).setField 3
                (some f3)).model_n env m1 4) d with
          | error e => simp [hg4] at hok
          | ok f4 =>
            simp only [hg4] at hok ⊢
            have hname1 : f1.name = a := getFieldId_ok_name env _ a f1 hg1 (hid a (by simp))
            have hname2 : f2.name = b := getFieldId_ok_name env _ b f2 hg2 (hid b (by simp))
            have hname3 : f3.name = c := getFieldId_ok_name env _ c f3 hg3 (hid c (by simp))
            have hname4 : f4.name = d := getFieldId_ok_name env _ d f4 hg4 (hid d (by simp))
            rw [← hname1, ← hname2, ← hname3, ← hname4]
            rfl
  · simp only [List.length_cons] at h4
    omega

/-- C2, counterexample: two path strings the inverse derivation accepts
without error whose forward recomputation does not return the original
string: `".id"` (the segment is aliased to the field `"id"`, so the
recomputed `name` is `"id"`), and `"/"` (both segments are empty, so the
selectors are silently cleared and the recomputed `name` is `""`). -/
theorem round_trip_counterexample :
    ((inverseNameSt envEx "res.partner" [] clearedLine (some ".id")).2 = none
      ∧ computeName (inverseNameSt envEx "res.partner" [] clearedLine (some ".id")).1 ≠ ".id")
    ∧ ((inverseNameSt envEx "res.partner" [] clearedLine (some "/")).2 = none
      ∧ computeName (inverseNameSt envEx "res.partner" [] clearedLine (some "/")).1 ≠ "/") := by
  decide

/-- C2, amended: for every path string the inverse derivation accepts
without error that has at least one nonempty segment and no segment equal to
the literal `".id"`, recomputing `name` forward from the resulting selectors
yields the original string. -/
theorem inverse_name_round_trip (env : Env) (m1 : String) (sibs : List String)
    (line : Line) (s : String)
    (hok : (inverseNameSt env m1 sibs line (some s)).2 = none)
    (hany : (splitSlash s).any (fun p => p != "") = true)
    (hid : ∀ p ∈ splitSlash s, p ≠ ".id") :
    computeName (inverseNameSt env m1 sibs line (some s)).1 = s := by
  have hlen : ¬ 4 < (splitSlash s).length := by
    intro hlt
    have hd : (inverseNameSt env m1 sibs line (some s)).2
        = some (ExportError.depthExceeded s) := by
      unfold inverseNameSt
      simp only [Option.getD_some]
      rw [if_pos hlt]
    rw [hd] at hok
    exact Option.noConfusion hok
  unfold inverseNameSt at hok ⊢
  simp only [Option.getD_some] at hok ⊢
  rw [if_neg hlen] at hok ⊢
  rw [hany] at hok ⊢
  cases hloop : inverseLoop env m1 (splitSlash s) true [1, 2, 3, 4] line with
  | mk l2 err =>
    cases err with
    | some e => simp [hloop] at hok
    | none =>
      simp only [hloop] at hok ⊢
      simp only [if_true] at hok ⊢
      cases hchk : checkName false env m1 sibs l2 s with
      | some e => simp [hchk] at hok
      | none =>
        simp only [hchk]
        have hrt := inverseLoop_roundtrip env m1 line (splitSlash s) (splitSlash_ne_nil s)
          (by omega) hid (by rw [hloop])
        rw [hloop] at hrt
        rw [joinSlash_splitSlash] at hrt
        exact hrt

theorem inverse_name_round_trip_witness :
    (inverseNameSt envEx "res.users" [] clearedLine (some "partner_id/name")).2 = none
    ∧ (splitSlash "partner_id/name").any (fun p => p != "") = true
    ∧ computeName (inverseNameSt envEx "res.users" [] clearedLine (some "partner_id/name")).1
        = "partner_id/name" :=
  ⟨by decide, by decide,
   inverse_name_round_trip envEx "res.users" [] clearedLine "partner_id/name"
     (by decide) (by decide) (by decide)⟩

/-! ### C4: field resolution -/

/-- C4: segment resolution aliases the literal segment `".id"` to the field
name `"id"`, returns the field-metadata row carrying the requested technical
name on the given model when one exists, and otherwise raises the validation
error naming both the missing field and the model. -/
theorem get_field_id_spec (env : Env) (m : String) (fname : String) (f : FieldMeta) :
    (getFieldId env (some m) ".id" = getFieldId env (some m) "id")
    ∧ (fname ≠ ".id" → env.findField m fname = some f →
        getFieldId env (some m) fname = Except.ok f)
    ∧ (fname ≠ ".id" → env.findField m fname = none →
        getFieldId env (some m) fname
          = Except.error (ExportError.fieldNotFound fname (some m))) := by
  refine ⟨rfl, ?_, ?_⟩
  · intro hne hf
    simp only [getFieldId_def, if_neg (show ¬((fname == ".id") = true) by simpa using hne), hf]
  · intro hne hf
    simp only [getFieldId_def, if_neg (show ¬((fname == ".id") = true) by simpa using hne), hf]

theorem get_field_id_spec_witness :
    ("name" ≠ ".id" ∧ envEx.findField "res.partner" "name" = some fldPName
      ∧ getFieldId envEx (some "res.partner") "name" = Except.ok fldPName)
    ∧ ("phone" ≠ ".id" ∧ envEx.findField "res.partner" "phone" = none
      ∧ getFieldId envEx (some "res.partner") "phone"
          = Except.error (ExportError.fieldNotFound "phone" (some "res.partner"))) :=
  ⟨⟨by decide, by decide,
    (get_field_id_spec envEx "res.partner" "name" fldPName).2.1 (by decide) (by decide)⟩,
   ⟨by decide, by decide,
    (get_field_id_spec envEx "res.partner" "phone" fldPName).2.2 (by decide) (by decide)⟩⟩

end BaseExportManager
